import Mathlib

/-!
Shallow embedding of the `bilstm` repository (files `src/bilstm/src/model.py` and
`src/losses.py`) and verification of its specification.

Tensors are modelled over the real numbers: a 1-D tensor is a `List ℝ`, a 2-D
tensor a `List (List ℝ)` (outer list = dim 0), a 3-D tensor a
`List (List (List ℝ))`.  Indexing `t[i]` is `List.getD t i default`; slicing
`t[:n]` is `List.take n`, `t[a:]` is `List.drop a`.  The definitions follow the
Python source line by line; framework primitives (`torch.dot`, `torch.mm` rows,
`F.pairwise_distance`, `torch.mean`, padded/packed sequences) are modelled by
their documented mathematics.
-/

/-- A 1-D tensor. -/
abbrev Vec := List ℝ

/-- A 2-D tensor (dim 0 is the outer list). -/
abbrev Mat := List Vec

/-- A 3-D tensor. -/
abbrev Ten3 := List Mat

/-- The zero vector `torch.zeros(n)`. -/
def zeros (n : ℕ) : Vec := List.replicate n (0 : ℝ)

/-- Dot product `torch.dot` (defined on the common length of the operands;
PyTorch additionally checks that the lengths agree, see the checked variants). -/
def dotv (u v : Vec) : ℝ := (List.zipWith (fun a b => a * b) u v).sum

/-- Size of dimension 1 of a 2-D tensor, `t.size()[1]`. -/
def size1 (t : Mat) : ℕ := (t.headD []).length

/-- Size of dimension 2 of a 3-D tensor, `t.size()[2]`. -/
def size2 (t : Ten3) : ℕ := ((t.headD []).headD []).length

/-- Mean of a 1-D tensor, `torch.mean`. -/
noncomputable def tensor_mean (v : Vec) : ℝ := v.sum / (v.length : ℝ)

/-- Row-wise Euclidean distance `F.pairwise_distance` (p = 2) of two vectors. -/
noncomputable def pairwise_distance (x y : Vec) : ℝ :=
  Real.sqrt ((List.zipWith (fun a b => (a - b) ^ 2) x y).sum)

/-- Python `max(l)` on a list of naturals (`max` of the empty list raises in
Python; the unchecked model returns 0 there and the checked variant guards). -/
def list_max (l : List ℕ) : ℕ := l.foldl max 0

/-- Model of `torch.nn.utils.rnn.PackedSequence`: a packed batch is
information-equivalent to the padded tensor it was packed from (stored exactly
as handed to `pack_padded_sequence`), the sequence lengths, and the layout
flag. -/
structure PackedSequence where
  padded : Ten3
  lens : List ℕ
  batch_first : Bool

/-- Model of `torch.nn.utils.rnn.pack_padded_sequence`. -/
def pack_padded_sequence (seqs : Ten3) (lens : List ℕ) (batch_first : Bool) :
    PackedSequence :=
  ⟨seqs, lens, batch_first⟩

/-- Model of `torch.nn.utils.rnn.pad_packed_sequence`: recovers the padded
tensor in the requested layout (transposing between time-major and batch-major
when the requested layout differs from the stored one) together with the
sequence lengths. -/
def pad_packed_sequence (ps : PackedSequence) (batch_first : Bool) :
    Ten3 × List ℕ :=
  (if batch_first = ps.batch_first then ps.padded else ps.padded.transpose, ps.lens)

/-! ## losses.py: ContrastiveLoss and SBContrastiveLoss -/

/-- The module state of `ContrastiveLoss` (`losses.py`): the `margin` field set
by `__init__`. -/
structure ContrastiveLoss where
  margin : ℝ

/-- Embedding of `ContrastiveLoss.forward` (`losses.py` lines 94–111):
`d = F.pairwise_distance(output1, output2)` row-wise, then
`torch.mean((1-label) * d**2 + label * clamp(margin - d, min=0)**2)`. -/
noncomputable def ContrastiveLoss.forward (self : ContrastiveLoss)
    (output1 output2 : Mat) (label : Vec) : ℝ :=
  let euclidean_distance := List.zipWith pairwise_distance output1 output2
  tensor_mean (List.zipWith
    (fun lab d => (1 - lab) * d ^ 2 + lab * max (self.margin - d) 0 ^ 2)
    label euclidean_distance)

/-- The module state of `SBContrastiveLoss` (`losses.py`): the `margin` field
set by `__init__`. -/
structure SBContrastiveLoss where
  margin : ℝ

/-- Embedding of `SBContrastiveLoss.forward` (`losses.py` lines 130–152).  The
body of the Python method is line for line the body of
`ContrastiveLoss.forward` (it does not implement the summed formula of its own
docstring). -/
noncomputable def SBContrastiveLoss.forward (self : SBContrastiveLoss)
    (desc1 desc2 : Mat) (label : Vec) : ℝ :=
  let euclidean_distance := List.zipWith pairwise_distance desc1 desc2
  tensor_mean (List.zipWith
    (fun lab d => (1 - lab) * d ^ 2 + lab * max (self.margin - d) 0 ^ 2)
    label euclidean_distance)

/-- The published stochastic bidirectional contrastive objective, stated from
the claim and from the docstring of `SBContrastiveLoss.forward`:
`loss = sum_f(sum_k(max(0, m - d(f, v) + d(f, v_k)))) +
        sum_v(sum_k(max(0, m - d(v, f) + d(v, f_k))))`,
where `v_k` (resp. `f_k`) ranges over the non-matching descriptors of the other
branch and `d` is the same row-wise Euclidean distance the code uses. -/
noncomputable def sb_objective (margin : ℝ) (desc1 desc2 : Mat) : ℝ :=
  ((List.range desc1.length).map fun i =>
    ((List.range desc2.length).map fun k =>
      if k = i then 0 else
        max 0 (margin - pairwise_distance (desc1.getD i []) (desc2.getD i [])
                 + pairwise_distance (desc1.getD i []) (desc2.getD k []))).sum).sum
  + ((List.range desc2.length).map fun i =>
    ((List.range desc1.length).map fun k =>
      if k = i then 0 else
        max 0 (margin - pairwise_distance (desc2.getD i []) (desc1.getD i [])
                 + pairwise_distance (desc2.getD i []) (desc1.getD k []))).sum).sum

/-- State-passing form of `ContrastiveLoss.forward`: the Python method receives
the module object and the three argument tensors; it contains no in-place
tensor operation and no assignment to `self`, so the embedding returns the
module and the arguments it finished with alongside the loss. -/
noncomputable def ContrastiveLoss.forwardS (self : ContrastiveLoss)
    (output1 output2 : Mat) (label : Vec) :
    ContrastiveLoss × Mat × Mat × Vec × ℝ :=
  (self, output1, output2, label, self.forward output1 output2 label)

/-- State-passing form of `SBContrastiveLoss.forward`, as for
`ContrastiveLoss.forwardS`. -/
noncomputable def SBContrastiveLoss.forwardS (self : SBContrastiveLoss)
    (desc1 desc2 : Mat) (label : Vec) :
    SBContrastiveLoss × Mat × Mat × Vec × ℝ :=
  (self, desc1, desc2, label, self.forward desc1 desc2 label)

/-! ## model.py: FullBiLSTM -/

/-- The stable descending index sort
`sorted(range(len(seq_lens)), key=lambda k: seq_lens[k], reverse=True)` of
`create_packed_seq` (`model.py` line 97): Python's sort is stable, and
`reverse=True` sorts by decreasing key keeping the original order of equal
keys, which is exactly a stable merge sort under the relation
`seq_lens[b] <= seq_lens[a]`. -/
def sorted_indices (seq_lens : List ℕ) : List ℕ :=
  (List.range seq_lens.length).mergeSort
    (fun a b => decide (seq_lens.getD b 0 ≤ seq_lens.getD a 0))

/-- The manually padded tensor built by the double loop of
`create_packed_seq` (`model.py` lines 88–93): entry `(i, j)` is
`feats[lookup_table[i][j]]` when `j < seq_lens[i]` and the zero vector of
width `feats.size()[1]` otherwise. -/
def padded_seqs (feats : Mat) (seq_lens : List ℕ)
    (lookup_table : List (List ℕ)) : Ten3 :=
  (List.range seq_lens.length).map fun i =>
    (List.range (list_max seq_lens)).map fun j =>
      if j < seq_lens.getD i 0 then
        feats.getD ((lookup_table.getD i []).getD j 0) []
      else zeros (size1 feats)

/-- Embedding of `FullBiLSTM.create_packed_seq` (`model.py` lines 66–102):
build the padded tensor, reorder its rows by decreasing sequence length
(stably), sort the lengths decreasingly, transpose to time-major when
`batch_first` is false (`seqs.permute(1, 0, 2)`), and pack. -/
def create_packed_seq (batch_first : Bool) (feats : Mat) (seq_lens : List ℕ)
    (lookup_table : List (List ℕ)) : PackedSequence :=
  let seqs := padded_seqs feats seq_lens lookup_table
  let seqs1 := (sorted_indices seq_lens).map fun k => seqs.getD k []
  let ordered_seq_lens := seq_lens.mergeSort (fun a b => decide (b ≤ a))
  pack_padded_sequence (if batch_first then seqs1 else seqs1.transpose)
    ordered_seq_lens batch_first

/-- Sequencing of a fallible check over a list: runs `f` on every element in
order and fails exactly when one of the checks fails (the shape of a Python
`for` loop whose body may raise). -/
def allSome {α β : Type} (f : α → Option β) : List α → Option Unit
  | [] => some ()
  | a :: t => do
    let _ ← f a
    allSome f t

/-- Checked variant of `FullBiLSTM.create_packed_seq`, recording exactly the
operations whose failure Python or the framework reports: `max(seq_lens)`
raises on the empty list, and each `lookup_table[i]`, `lookup_table[i][j]`,
`feats[lookup_table[i][j]]` evaluated in the loop body (only when
`j < seq_lens[i]`) raises when out of range.  The repository adds no check,
raise or except of its own around them. -/
def create_packed_seq_checked (batch_first : Bool) (feats : Mat)
    (seq_lens : List ℕ) (lookup_table : List (List ℕ)) :
    Option PackedSequence :=
  if seq_lens.isEmpty then none
  else do
    let _ ← allSome (fun i =>
      allSome (fun j =>
        if j < seq_lens.getD i 0 then do
          let row ← lookup_table[i]?
          let idx ← row[j]?
          let _ ← feats[idx]?
          pure ()
        else pure ()) (List.range (list_max seq_lens)))
      (List.range seq_lens.length)
    pure (create_packed_seq batch_first feats seq_lens lookup_table)

/-- The exact framework-level success condition of `create_packed_seq`:
`seq_lens` is non-empty and every index the loop evaluates is in range. -/
def cps_framework_ok (feats : Mat) (seq_lens : List ℕ)
    (lookup_table : List (List ℕ)) : Prop :=
  seq_lens ≠ [] ∧
  ∀ i < seq_lens.length, ∀ j < seq_lens.getD i 0,
    i < lookup_table.length ∧ j < (lookup_table.getD i []).length ∧
    (lookup_table.getD i []).getD j 0 < feats.length

/-- Model of `torch.nn.Linear(in_features, out_features)`: a weight matrix of
shape `(out_features, in_features)` and a bias of length `out_features`, with
entries given by the (externally sampled) initialisation values `w`, `b`. -/
def nn_Linear (in_features out_features : ℕ) (w : ℕ → ℕ → ℝ) (b : ℕ → ℝ) :
    { l : Mat × Vec // l.1.length = out_features ∧ l.2.length = out_features } :=
  ⟨((List.range out_features).map fun r =>
      (List.range in_features).map fun c => w r c,
    (List.range out_features).map b),
   by simp⟩

/-- Application of a linear layer `y = W x + b` (row `r` of the output is
`W_r . x + b_r`). -/
def linear_apply (weight : Mat) (bias : Vec) (x : Vec) : Vec :=
  List.zipWith (fun wr br => dotv wr x + br) weight bias

/-- Configuration of `torch.nn.LSTM` as set by the `FullBiLSTM` constructor
(`model.py` lines 30–32). -/
structure LSTMCfg where
  input_size : ℕ
  hidden_size : ℕ
  num_layers : ℕ
  batch_first : Bool
  bidirectional : Bool
  dropout : ℝ

/-- The module state of `FullBiLSTM` built by `__init__` (`model.py` lines
22–32): dimensions, layout flag, the `inception_v3` backbone whose final
fully-connected layer was replaced by `nn.Linear(2048, input_dim)` (the new
layer is kept as an explicit weight/bias pair), and the LSTM configuration. -/
structure FullBiLSTM where
  input_dim : ℕ
  hidden_dim : ℕ
  batch_first : Bool
  fc_weight : Mat
  fc_bias : Vec
  lstm : LSTMCfg

/-- Embedding of `FullBiLSTM.__init__`: stores the dimensions and the layout
flag, replaces the backbone's final layer by `nn.Linear(2048, input_dim)` with
initialisation values `w`, `b`, and creates
`nn.LSTM(input_dim, hidden_dim, num_layers=1, batch_first, bidirectional=True,
dropout)`. -/
def FullBiLSTM.init (input_dim hidden_dim : ℕ) (batch_first : Bool)
    (dropout : ℝ) (w : ℕ → ℕ → ℝ) (b : ℕ → ℝ) : FullBiLSTM :=
  ⟨input_dim, hidden_dim, batch_first,
   (nn_Linear 2048 input_dim w b).1.1, (nn_Linear 2048 input_dim w b).1.2,
   ⟨input_dim, hidden_dim, 1, batch_first, true, dropout⟩⟩

/-- The CNN pass `feats, _ = self.cnn(images)` of `FullBiLSTM.forward`: the
`inception_v3` backbone maps each image to its 2048-dimensional pre-fc
features (the pretrained convolutional stack, modelled as the abstract
function `backbone`), and the replaced `fc` layer maps those to `input_dim`
dimensions; the auxiliary head output is discarded by the source. -/
def cnn_features {Img : Type} (m : FullBiLSTM) (backbone : Img → Vec)
    (images : List Img) : Mat :=
  images.map fun im => linear_apply m.fc_weight m.fc_bias (backbone im)

/-- Embedding of `FullBiLSTM.forward` (`model.py` lines 34–59): CNN features,
then `create_packed_seq`, then the LSTM run (the learned behaviour of
`self.lstm`, modelled as the abstract function `lstm_run`); returns the packed
features together with the pair of LSTM outputs and final hidden states. -/
def FullBiLSTM.forward {Img Out : Type} (m : FullBiLSTM)
    (backbone : Img → Vec) (lstm_run : PackedSequence → Ten3 × Ten3 → Out)
    (images : List Img) (seq_lens : List ℕ) (lookup_table : List (List ℕ))
    (hidden : Ten3 × Ten3) : PackedSequence × Out :=
  let feats := cnn_features m backbone images
  let packed_feats := create_packed_seq m.batch_first feats seq_lens lookup_table
  (packed_feats, lstm_run packed_feats hidden)

/-- A 3-D tensor of shape `(a, b, c)` with entries `g` — model of
`torch.randn((a, b, c))` where `g` gives the externally sampled values. -/
def mk_ten3 (a b c : ℕ) (g : ℕ → ℕ → ℕ → ℝ) : Ten3 :=
  (List.range a).map fun x => (List.range b).map fun y =>
    (List.range c).map fun z => g x y z

/-- Embedding of `FullBiLSTM.init_hidden` (`model.py` lines 61–64): a pair of
`torch.randn(2, batch_size, hidden_dim)` tensors with sampled entries
`g1`, `g2`. -/
def FullBiLSTM.init_hidden (m : FullBiLSTM) (batch_size : ℕ)
    (g1 g2 : ℕ → ℕ → ℕ → ℝ) : Ten3 × Ten3 :=
  (mk_ten3 2 batch_size m.hidden_dim g1, mk_ten3 2 batch_size m.hidden_dim g2)

/-! ## losses.py: LSTMLosses -/

/-- The module state of `LSTMLosses` (`losses.py`): the `batch_first` and
`cuda` flags set by `__init__` (the `cuda` flag only moves tensors between
devices, which is numerically the identity). -/
structure LSTMLosses where
  batch_first : Bool
  cuda : Bool

/-- The denominator of `LSTMLosses.forward` (`losses.py` lines 61–63 and
68–70): `torch.cat([torch.exp(torch.mm(h.unsqueeze(0),
feats[k].permute(1, 0))).sum() for k in range(len(seq_lens))]).sum()`, i.e.
the sum over `k < len(seq_lens)` and over every padded row of `feats[k]` of
`exp(h . feats[k][t])`. -/
noncomputable def exp_mm_denom (h : Vec) (feats : Ten3) (n : ℕ) : ℝ :=
  ((List.range n).map fun k =>
    ((feats.getD k []).map fun row => Real.exp (dotv h row)).sum).sum

/-- The tensor `fw_seq_feats = torch.cat((feats[i, :seq_len, :], start_stop))`
(`losses.py` line 55): the valid rows of sequence `i` with a zero stop row
appended. -/
def fw_seq_feats (feats : Ten3) (i seq_len : ℕ) : Mat :=
  (feats.getD i []).take seq_len ++ [zeros (size2 feats)]

/-- The tensor `bw_seq_feats = torch.cat((start_stop, feats[i, :seq_len, :]))`
(`losses.py` line 58): a zero start row prepended to the valid rows of
sequence `i`. -/
def bw_seq_feats (feats : Ten3) (i seq_len : ℕ) : Mat :=
  zeros (size2 feats) :: (feats.getD i []).take seq_len

/-- The tensor `fw_seq_hiddens = hidden[i, :seq_len, :hidden.size()[2] // 2]`
(`losses.py` line 56): forward hidden states. -/
def fw_seq_hiddens (hidden : Ten3) (i seq_len : ℕ) : Mat :=
  ((hidden.getD i []).take seq_len).map fun row => row.take (size2 hidden / 2)

/-- The tensor `bw_seq_hiddens = hidden[i, :seq_len, hidden.size()[2] // 2:]`
(`losses.py` line 59): backward hidden states. -/
def bw_seq_hiddens (hidden : Ten3) (i seq_len : ℕ) : Mat :=
  ((hidden.getD i []).take seq_len).map fun row => row.drop (size2 hidden / 2)

/-- The accumulated value of `fw_seq_loss` after the `j` loop of
`LSTMLosses.forward` (`losses.py` lines 61–66):
`sum_j exp(fw_seq_hiddens[j] . fw_seq_feats[j+1]) / fw_denom_j`. -/
noncomputable def fw_seq_prob_sum (feats hidden : Ten3) (i seq_len n : ℕ) : ℝ :=
  ((List.range seq_len).map fun j =>
    Real.exp (dotv ((fw_seq_hiddens hidden i seq_len).getD j [])
                   ((fw_seq_feats feats i seq_len).getD (j + 1) [])) /
      exp_mm_denom ((fw_seq_hiddens hidden i seq_len).getD j []) feats n).sum

/-- The accumulated value of `bw_seq_loss` after the `j` loop of
`LSTMLosses.forward` (`losses.py` lines 68–73):
`sum_j exp(bw_seq_hiddens[j] . bw_seq_feats[j]) / bw_denom_j`. -/
noncomputable def bw_seq_prob_sum (feats hidden : Ten3) (i seq_len n : ℕ) : ℝ :=
  ((List.range seq_len).map fun j =>
    Real.exp (dotv ((bw_seq_hiddens hidden i seq_len).getD j [])
                   ((bw_seq_feats feats i seq_len).getD j [])) /
      exp_mm_denom ((bw_seq_hiddens hidden i seq_len).getD j []) feats n).sum

/-- Embedding of `LSTMLosses.forward` (`losses.py` lines 23–80): unpad the
packed batch, accumulate per sequence `i` the probability sums, turn each into
`-log(sum)/seq_len`, accumulate over the batch and divide by the batch
size. -/
noncomputable def LSTMLosses.forward (self : LSTMLosses)
    (packed_feats : PackedSequence) (hidden : Ten3) : ℝ × ℝ :=
  let fp := pad_packed_sequence packed_feats self.batch_first
  let feats := fp.1
  let seq_lens := fp.2
  let n := seq_lens.length
  ((((List.range n).map fun i =>
      (-Real.log (fw_seq_prob_sum feats hidden i (seq_lens.getD i 0) n)) /
        ((seq_lens.getD i 0 : ℕ) : ℝ)).sum) / (n : ℝ),
   (((List.range n).map fun i =>
      (-Real.log (bw_seq_prob_sum feats hidden i (seq_lens.getD i 0) n)) /
        ((seq_lens.getD i 0 : ℕ) : ℝ)).sum) / (n : ℝ))

/-! The claim-side formulation of the per-timestep probabilities, written from
the specification's words. -/

/-- Forward hidden state `h_fw[i, j]` of the claim: the first half of the
hidden output at sequence `i`, timestep `j`. -/
def hfw_spec (hidden : Ten3) (i j : ℕ) : Vec :=
  ((hidden.getD i []).getD j []).take (size2 hidden / 2)

/-- Backward hidden state `h_bw[i, j]` of the claim: the second half of the
hidden output at sequence `i`, timestep `j`. -/
def hbw_spec (hidden : Ten3) (i j : ℕ) : Vec :=
  ((hidden.getD i []).getD j []).drop (size2 hidden / 2)

/-- The claim's `x[i, j]` for the forward direction: the padded features with
`x[i, seq_len]` a zero stop vector. -/
def x_stop_spec (feats : Ten3) (lens : List ℕ) (i j : ℕ) : Vec :=
  if j < lens.getD i 0 then (feats.getD i []).getD j [] else zeros (size2 feats)

/-- The claim's `x` for the backward direction: the zero start vector
prepended, so position `0` is the zero vector and position `j > 0` is
`feats[i][j-1]`. -/
def x_start_spec (feats : Ten3) (i j : ℕ) : Vec :=
  if j = 0 then zeros (size2 feats) else (feats.getD i []).getD (j - 1) []

/-- The claim's normalizing denominator for hidden state `h`: the sum over
every sequence `k` and every padded position `t < max_seq_len` of
`exp(h . x[k, t])`. -/
noncomputable def denom_spec (h : Vec) (feats : Ten3) (n maxL : ℕ) : ℝ :=
  ((List.range n).map fun k =>
    ((List.range maxL).map fun t =>
      Real.exp (dotv h ((feats.getD k []).getD t []))).sum).sum

/-- The claim's forward probability at sequence `i`, timestep `j`. -/
noncomputable def fw_prob_spec (feats hidden : Ten3) (lens : List ℕ)
    (maxL i j : ℕ) : ℝ :=
  Real.exp (dotv (hfw_spec hidden i j) (x_stop_spec feats lens i (j + 1))) /
    denom_spec (hfw_spec hidden i j) feats lens.length maxL

/-- The claim's backward probability at sequence `i`, timestep `j`. -/
noncomputable def bw_prob_spec (feats hidden : Ten3) (lens : List ℕ)
    (maxL i j : ℕ) : ℝ :=
  Real.exp (dotv (hbw_spec hidden i j) (x_start_spec feats i j)) /
    denom_spec (hbw_spec hidden i j) feats lens.length maxL

/-- The claim's value of `LSTMLosses.forward`: the pair of means over the
batch of `-log(sum_j prob_j) / seq_lens[i]`. -/
noncomputable def lstm_losses_spec (feats hidden : Ten3) (lens : List ℕ)
    (maxL : ℕ) : ℝ × ℝ :=
  let n := lens.length
  ((((List.range n).map fun i =>
      (-Real.log (((List.range (lens.getD i 0)).map fun j =>
        fw_prob_spec feats hidden lens maxL i j).sum)) /
        ((lens.getD i 0 : ℕ) : ℝ)).sum) / (n : ℝ),
   (((List.range n).map fun i =>
      (-Real.log (((List.range (lens.getD i 0)).map fun j =>
        bw_prob_spec feats hidden lens maxL i j).sum)) /
        ((lens.getD i 0 : ℕ) : ℝ)).sum) / (n : ℝ))

/-! ## List indexing helper lemmas -/

lemma getD_range_map {α : Type} (f : ℕ → α) {n r : ℕ} (hr : r < n) (d : α) :
    ((List.range n).map f).getD r d = f r := by
  rw [List.getD_eq_getElem _ _ (by simpa using hr)]
  simp

lemma zipWith_eq_range_map {α β γ : Type} (f : α → β → γ) (l1 : List α)
    (l2 : List β) (d1 : α) (d2 : β) (h : l1.length = l2.length) :
    List.zipWith f l1 l2 =
      (List.range l1.length).map fun r => f (l1.getD r d1) (l2.getD r d2) := by
  apply List.ext_getElem (by simp [h])
  intro r h1 h2
  have hr1 : r < l1.length := by simpa using h2
  have hr2 : r < l2.length := by rw [← h]; exact hr1
  simp [List.getElem_zipWith, List.getD_eq_getElem?_getD,
    List.getElem?_eq_getElem hr1, List.getElem?_eq_getElem hr2]

lemma map_sum_eq_range_sum {α : Type} (g : α → ℝ) (l : List α) (d : α) :
    (l.map g).sum =
      ((List.range l.length).map fun t => g (l.getD t d)).sum := by
  congr 1
  apply List.ext_getElem (by simp)
  intro t h1 h2
  have ht : t < l.length := by simpa using h1
  simp [List.getD_eq_getElem?_getD, List.getElem?_eq_getElem ht]

lemma getD_take {α : Type} (l : List α) {j m : ℕ} (hj : j < m) (d : α) :
    (l.take m).getD j d = l.getD j d := by
  by_cases h : j < l.length
  · have hjt : j < (l.take m).length := by simp [List.length_take]; omega
    rw [List.getD_eq_getElem _ _ hjt, List.getD_eq_getElem _ _ h,
      List.getElem_take]
  · rw [List.getD_eq_default _ _ (by simp [List.length_take]; omega),
      List.getD_eq_default _ _ (by omega)]

lemma getD_map_of_lt {α β : Type} (f : α → β) (l : List α) {j : ℕ}
    (hj : j < l.length) (d : β) (d' : α) :
    (l.map f).getD j d = f (l.getD j d') := by
  rw [List.getD_eq_getElem _ _ (by simpa using hj), List.getD_eq_getElem _ _ hj]
  simp

lemma foldl_max_init_le (l : List ℕ) (a : ℕ) : a ≤ l.foldl max a := by
  induction l generalizing a with
  | nil => simp
  | cons b t ih => exact le_trans (le_max_left a b) (ih (max a b))

lemma mem_le_foldl_max {l : List ℕ} {x : ℕ} (hx : x ∈ l) (a : ℕ) :
    x ≤ l.foldl max a := by
  induction l generalizing a with
  | nil => cases hx
  | cons b t ih =>
    rcases List.mem_cons.mp hx with h | h
    · subst h
      exact le_trans (le_max_right a x) (foldl_max_init_le t _)
    · exact ih h _

lemma getD_le_list_max {l : List ℕ} {i : ℕ} (hi : i < l.length) :
    l.getD i 0 ≤ list_max l := by
  have : l.getD i 0 ∈ l := by
    rw [List.getD_eq_getElem _ _ hi]
    exact List.getElem_mem hi
  exact mem_le_foldl_max this 0

/-- Distance of two one-dimensional descriptors. -/
lemma pairwise_distance_single (a b : ℝ) :
    pairwise_distance [a] [b] = |a - b| := by
  simp [pairwise_distance, Real.sqrt_sq_eq_abs]

/-! ## Claim theorems: the contrastive losses -/

/-- C4: `ContrastiveLoss.forward(output1, output2, label)` returns
`mean((1 - label) * d^2 + label * max(0, margin - d)^2)`, where `d` is the
pairwise Euclidean distance between `output1` and `output2`, for every pair of
equal-shaped descriptor batches and every label vector. -/
theorem C4_contrastive_loss_formula (m : ℝ) (output1 output2 : Mat)
    (label : Vec)
    (h1 : output1.length = label.length) (h2 : output2.length = label.length)
    (h3 : ∀ r < label.length,
      (output1.getD r []).length = (output2.getD r []).length) :
    (ContrastiveLoss.mk m).forward output1 output2 label =
      tensor_mean ((List.range label.length).map fun r =>
        (1 - label.getD r 0) *
            Real.sqrt (((List.range (output1.getD r []).length).map fun c =>
              ((output1.getD r []).getD c 0 -
                (output2.getD r []).getD c 0) ^ 2).sum) ^ 2
          + label.getD r 0 *
              max 0 (m -
                Real.sqrt (((List.range (output1.getD r []).length).map fun c =>
                  ((output1.getD r []).getD c 0 -
                    (output2.getD r []).getD c 0) ^ 2).sum)) ^ 2) := by
  show tensor_mean _ = _
  have hlen : output1.length = output2.length := h1.trans h2.symm
  rw [zipWith_eq_range_map pairwise_distance output1 output2 [] [] hlen]
  rw [zipWith_eq_range_map _ label _ 0 0 (by simp [h1])]
  rw [h1]
  congr 1
  apply List.map_congr_left
  intro r hr
  rw [List.mem_range] at hr
  rw [getD_range_map _ hr 0]
  simp only [pairwise_distance]
  rw [zipWith_eq_range_map _ (output1.getD r []) (output2.getD r []) 0 0
    (h3 r hr)]
  simp [max_comm]

/-- Witness for C4 at a concrete input. -/
theorem C4_contrastive_loss_formula_witness :
    (ContrastiveLoss.mk 1).forward [[0, 0]] [[1, 1]] [1] =
      tensor_mean ((List.range (([1] : Vec)).length).map fun r =>
        (1 - ([1] : Vec).getD r 0) *
            Real.sqrt (((List.range (([[0, 0]] : Mat).getD r []).length).map
              fun c => ((([[0, 0]] : Mat).getD r []).getD c 0 -
                (([[1, 1]] : Mat).getD r []).getD c 0) ^ 2).sum) ^ 2
          + ([1] : Vec).getD r 0 *
              max 0 (1 -
                Real.sqrt (((List.range (([[0, 0]] : Mat).getD r []).length).map
                  fun c => ((([[0, 0]] : Mat).getD r []).getD c 0 -
                    (([[1, 1]] : Mat).getD r []).getD c 0) ^ 2).sum)) ^ 2) :=
  C4_contrastive_loss_formula 1 [[0, 0]] [[1, 1]] [1] (by decide) (by decide)
    (by decide)

/-- C8: for every pair of descriptor batches and every label vector,
`SBContrastiveLoss(margin).forward` returns exactly the same value as
`ContrastiveLoss(margin).forward`: the two loss classes are extensionally
equal functions. -/
theorem C8_sb_forward_equals_contrastive_forward (m : ℝ) (desc1 desc2 : Mat)
    (label : Vec) :
    (SBContrastiveLoss.mk m).forward desc1 desc2 label =
      (ContrastiveLoss.mk m).forward desc1 desc2 label := rfl

/-- C7: `ContrastiveLoss.forward` and `SBContrastiveLoss.forward` mutate no
state: in the state-passing embedding each call returns the module (hence its
`margin` field) and every input tensor unchanged, and its only effect is the
returned loss value. -/
theorem C7_loss_forward_mutates_no_state (c : ContrastiveLoss)
    (s : SBContrastiveLoss) (o1 o2 : Mat) (lab : Vec) (d1 d2 : Mat)
    (lab' : Vec) :
    c.forwardS o1 o2 lab = (c, o1, o2, lab, c.forward o1 o2 lab) ∧
    (c.forwardS o1 o2 lab).1.margin = c.margin ∧
    s.forwardS d1 d2 lab' = (s, d1, d2, lab', s.forward d1 d2 lab') ∧
    (s.forwardS d1 d2 lab').1.margin = s.margin :=
  ⟨rfl, rfl, rfl, rfl⟩

/-- C1: `SBContrastiveLoss.forward` does not compute the published stochastic
bidirectional objective that its own docstring (and the claim) states: at
`margin = 2`, `desc1 = desc2 = [[0], [3]]`, `label = [0, 0]` the method
returns `0` (it computes the plain mean contrastive formula) while the
published objective `sum_f sum_k max(0, m - d(f,v) + d(f,v_k)) +
sum_v sum_k max(0, m - d(v,f) + d(v,f_k))` evaluates to `20`. -/
theorem C1_sb_forward_diverges_from_published_objective :
    (SBContrastiveLoss.mk 2).forward [[0], [3]] [[0], [3]] [0, 0] = 0 ∧
    sb_objective 2 [[0], [3]] [[0], [3]] = 20 ∧
    (SBContrastiveLoss.mk 2).forward [[0], [3]] [[0], [3]] [0, 0] ≠
      sb_objective 2 [[0], [3]] [[0], [3]] := by
  have e1 : pairwise_distance [(0 : ℝ)] [(0 : ℝ)] = 0 := by
    rw [pairwise_distance_single]; norm_num
  have e2 : pairwise_distance [(3 : ℝ)] [(3 : ℝ)] = 0 := by
    rw [pairwise_distance_single]; norm_num
  have e3 : pairwise_distance [(0 : ℝ)] [(3 : ℝ)] = 3 := by
    rw [pairwise_distance_single, abs_sub_comm]
    rw [abs_of_nonneg (by norm_num)]
    norm_num
  have e4 : pairwise_distance [(3 : ℝ)] [(0 : ℝ)] = 3 := by
    rw [pairwise_distance_single]
    rw [abs_of_nonneg (by norm_num)]
    norm_num
  refine ⟨?_, ?_, ?_⟩
  · simp [SBContrastiveLoss.forward, tensor_mean, e1, e2]
  · simp [sb_objective, List.range_succ, e1, e2, e3, e4]
    norm_num
  · simp [SBContrastiveLoss.forward, tensor_mean, sb_objective,
      List.range_succ, e1, e2, e3, e4]
    norm_num

/-! ## Sorting lemmas for create_packed_seq -/

lemma sorted_indices_perm_range (seq_lens : List ℕ) :
    (sorted_indices seq_lens).Perm (List.range seq_lens.length) :=
  List.mergeSort_perm _ _

lemma sorted_indices_length (seq_lens : List ℕ) :
    (sorted_indices seq_lens).length = seq_lens.length := by
  simpa using (sorted_indices_perm_range seq_lens).length_eq

lemma sorted_indices_mem_lt {seq_lens : List ℕ} {x : ℕ}
    (hx : x ∈ sorted_indices seq_lens) : x < seq_lens.length := by
  have := (sorted_indices_perm_range seq_lens).mem_iff.mp hx
  simpa using this

lemma sorted_indices_pairwise (seq_lens : List ℕ) :
    (sorted_indices seq_lens).Pairwise
      (fun a b => seq_lens.getD b 0 ≤ seq_lens.getD a 0) := by
  have h := @List.sorted_mergeSort ℕ
    (fun a b => decide (seq_lens.getD b 0 ≤ seq_lens.getD a 0))
    (fun a b c h1 h2 => by
      simp only [decide_eq_true_eq] at *
      omega)
    (fun a b => by
      simp only [Bool.or_eq_true, decide_eq_true_eq]
      omega)
    (List.range seq_lens.length)
  exact h.imp (fun h' => by simpa using h')

lemma range_map_getD (l : List ℕ) :
    (List.range l.length).map (fun k => l.getD k 0) = l := by
  apply List.ext_getElem (by simp)
  intro r h1 h2
  have hr : r < l.length := by simpa using h2
  simp [List.getD_eq_getElem?_getD, List.getElem?_eq_getElem hr]

/-- The decreasingly sorted lengths are exactly the lengths read off along the
stable descending index sort. -/
lemma ordered_lens_eq_map (seq_lens : List ℕ) :
    seq_lens.mergeSort (fun a b => decide (b ≤ a)) =
      (sorted_indices seq_lens).map (fun k => seq_lens.getD k 0) := by
  haveI : IsAntisymm ℕ (fun a b => a ≥ b) := ⟨fun a b h1 h2 => le_antisymm h2 h1⟩
  apply List.eq_of_perm_of_sorted (r := fun a b => a ≥ b)
  · have h1 : (seq_lens.mergeSort (fun a b => decide (b ≤ a))).Perm seq_lens :=
      List.mergeSort_perm _ _
    have h2 : ((sorted_indices seq_lens).map (fun k => seq_lens.getD k 0)).Perm
        ((List.range seq_lens.length).map (fun k => seq_lens.getD k 0)) :=
      (sorted_indices_perm_range seq_lens).map _
    rw [range_map_getD] at h2
    exact h1.trans h2.symm
  · have h := @List.sorted_mergeSort ℕ
      (fun a b : ℕ => decide (b ≤ a))
      (fun a b c h1 h2 => by
        simp only [decide_eq_true_eq] at *
        omega)
      (fun a b => by
        simp only [Bool.or_eq_true, decide_eq_true_eq]
        omega)
      seq_lens
    exact h.imp (fun h' => by simpa using h')
  · exact (sorted_indices_pairwise seq_lens).map _
      (fun {a b} h => by simpa using h)

lemma ordered_lens_sorted (seq_lens : List ℕ) :
    List.Sorted (fun a b => a ≥ b)
      (seq_lens.mergeSort (fun a b => decide (b ≤ a))) := by
  have h := @List.sorted_mergeSort ℕ
    (fun a b : ℕ => decide (b ≤ a))
    (fun a b c h1 h2 => by
      simp only [decide_eq_true_eq] at *
      omega)
    (fun a b => by
      simp only [Bool.or_eq_true, decide_eq_true_eq]
      omega)
    seq_lens
  exact h.imp (fun h' => by simpa using h')

/-! ## Option-monad lemmas for the checked embeddings -/

lemma allSome_isSome {α β : Type} (f : α → Option β) (l : List α) :
    (allSome f l).isSome ↔ ∀ a ∈ l, (f a).isSome := by
  induction l with
  | nil => simp [allSome]
  | cons a t ih => cases hfa : f a <;> simp [allSome, hfa, ih]

lemma bind_pure_of_isSome {α β : Type} {m : Option α} (h : m.isSome) (v : β) :
    (do
      let _ ← m
      pure v : Option β) = some v := by
  cases m with
  | none => simp at h
  | some a => rfl

lemma cps_branch_isSome (feats : Mat) (lookup_table : List (List ℕ))
    (i j : ℕ) :
    (do
      let row ← lookup_table[i]?
      let idx ← row[j]?
      let _ ← feats[idx]?
      pure () : Option Unit).isSome ↔
      (i < lookup_table.length ∧ j < (lookup_table.getD i []).length ∧
        (lookup_table.getD i []).getD j 0 < feats.length) := by
  by_cases hi : i < lookup_table.length
  · have hrow : lookup_table.getD i [] = lookup_table[i] :=
      List.getD_eq_getElem _ _ hi
    rw [List.getElem?_eq_getElem hi, hrow]
    simp only [Option.bind_eq_bind, Option.some_bind]
    by_cases hj : j < (lookup_table[i]).length
    · have hgd : (lookup_table[i]).getD j 0 = (lookup_table[i])[j] :=
        List.getD_eq_getElem _ _ hj
      rw [hgd, List.getElem?_eq_getElem hj]
      simp only [Option.some_bind]
      by_cases hf : (lookup_table[i])[j] < feats.length
      · rw [List.getElem?_eq_getElem hf]
        simp [hi, hj, hf]
      · rw [List.getElem?_eq_none (by omega : feats.length ≤ (lookup_table[i])[j])]
        simp [hi, hj, hf]
    · rw [List.getElem?_eq_none (by omega : (lookup_table[i]).length ≤ j)]
      simp [hi, hj]
  · rw [List.getElem?_eq_none (by omega : lookup_table.length ≤ i)]
    simp [hi]

lemma isSome_do_pure {α β : Type} (m : Option α) (v : β) :
    (do
      let _ ← m
      pure v : Option β).isSome = m.isSome := by
  cases m <;> rfl

/-! ## Claim theorems: create_packed_seq -/

/-- C3: `FullBiLSTM.create_packed_seq(feats, seq_lens, lookup_table)`
implements variable-length packing/padding: the padded tensor holds
`feats[lookup_table[i][j]]` at `(i, j)` when `j < seq_lens[i]` and the zero
vector when `j >= seq_lens[i]`; the rows are then reordered by decreasing
sequence length (by the stable descending index sort), packed with the
correspondingly sorted lengths, and transposed to time-major first when
`batch_first` is false. -/
theorem C3_create_packed_seq_pads_sorts_packs (batch_first : Bool)
    (feats : Mat) (seq_lens : List ℕ) (lookup_table : List (List ℕ)) :
    (∀ i < seq_lens.length, ∀ j < list_max seq_lens,
      ((padded_seqs feats seq_lens lookup_table).getD i []).getD j [] =
        if j < seq_lens.getD i 0 then
          feats.getD ((lookup_table.getD i []).getD j 0) []
        else zeros (size1 feats)) ∧
    (create_packed_seq batch_first feats seq_lens lookup_table).padded =
      (if batch_first then
        (sorted_indices seq_lens).map
          (fun k => (padded_seqs feats seq_lens lookup_table).getD k [])
      else ((sorted_indices seq_lens).map
          (fun k => (padded_seqs feats seq_lens lookup_table).getD k [])).transpose) ∧
    (create_packed_seq batch_first feats seq_lens lookup_table).lens =
      (sorted_indices seq_lens).map (fun k => seq_lens.getD k 0) ∧
    List.Sorted (fun a b => a ≥ b)
      (create_packed_seq batch_first feats seq_lens lookup_table).lens ∧
    (sorted_indices seq_lens).Perm (List.range seq_lens.length) ∧
    (create_packed_seq batch_first feats seq_lens lookup_table).batch_first =
      batch_first := by
  refine ⟨?_, ?_, ?_, ?_, sorted_indices_perm_range seq_lens, rfl⟩
  · intro i hi j hj
    simp only [padded_seqs]
    rw [getD_range_map _ hi, getD_range_map _ hj]
  · simp only [create_packed_seq, pack_padded_sequence]
  · simp only [create_packed_seq, pack_padded_sequence]
    exact ordered_lens_eq_map seq_lens
  · simp only [create_packed_seq, pack_padded_sequence]
    exact ordered_lens_sorted seq_lens

/-- Witness for C3 at a concrete input: batch of sequences of lengths
`[1, 2]` over three feature rows. -/
theorem C3_create_packed_seq_pads_sorts_packs_witness :
    (((padded_seqs [[5], [6], [7]] [1, 2] [[0], [1, 2]]).getD 0 []).getD 1 [] =
      if 1 < ([1, 2] : List ℕ).getD 0 0 then
        ([[5], [6], [7]] : Mat).getD
          ((([[0], [1, 2]] : List (List ℕ)).getD 0 []).getD 1 0) []
      else zeros (size1 [[5], [6], [7]])) ∧
    (create_packed_seq true [[5], [6], [7]] [1, 2] [[0], [1, 2]]).lens =
      (sorted_indices [1, 2]).map (fun k => ([1, 2] : List ℕ).getD k 0) :=
  ⟨(C3_create_packed_seq_pads_sorts_packs true [[5], [6], [7]] [1, 2]
      [[0], [1, 2]]).1 0 (by decide) 1 (by decide),
   (C3_create_packed_seq_pads_sorts_packs true [[5], [6], [7]] [1, 2]
      [[0], [1, 2]]).2.2.1⟩

/-- C10: under the claim's precondition (non-empty `seq_lens`, positive
lengths, a lookup row per sequence with at least `seq_lens[i]` entries, all
referenced feature rows present) every index evaluated inside
`create_packed_seq` is in bounds and `max(seq_lens)` is defined, so the
checked run succeeds and returns the unchecked result: the error branch is
unreachable. -/
theorem C10_create_packed_seq_error_free (batch_first : Bool) (feats : Mat)
    (seq_lens : List ℕ) (lookup_table : List (List ℕ))
    (hne : seq_lens ≠ [])
    (hpos : ∀ i < seq_lens.length, 0 < seq_lens.getD i 0)
    (hrow : lookup_table.length = seq_lens.length)
    (hlen : ∀ i < seq_lens.length,
      seq_lens.getD i 0 ≤ (lookup_table.getD i []).length)
    (hidx : ∀ i < seq_lens.length, ∀ j < seq_lens.getD i 0,
      (lookup_table.getD i []).getD j 0 < feats.length) :
    create_packed_seq_checked batch_first feats seq_lens lookup_table =
      some (create_packed_seq batch_first feats seq_lens lookup_table) := by
  simp only [create_packed_seq_checked]
  rw [if_neg (by simpa using hne)]
  apply bind_pure_of_isSome
  rw [allSome_isSome]
  intro i hi
  rw [List.mem_range] at hi
  rw [allSome_isSome]
  intro j hj
  rw [List.mem_range] at hj
  by_cases hlt : j < seq_lens.getD i 0
  · rw [if_pos hlt, cps_branch_isSome]
    refine ⟨by omega, ?_, hidx i hi j hlt⟩
    have := hlen i hi
    omega
  · rw [if_neg hlt]
    simp

/-- Witness for C10 at a concrete input. -/
theorem C10_create_packed_seq_error_free_witness :
    create_packed_seq_checked true [[5], [6], [7]] [1, 2] [[0], [1, 2]] =
      some (create_packed_seq true [[5], [6], [7]] [1, 2] [[0], [1, 2]]) :=
  C10_create_packed_seq_error_free true [[5], [6], [7]] [1, 2] [[0], [1, 2]]
    (by decide) (by decide) (by decide) (by decide) (by decide)

/-- The checked `create_packed_seq` succeeds exactly on the framework-level
success condition: the repository raises nothing of its own and catches
nothing. -/
lemma cps_checked_isSome_iff (batch_first : Bool) (feats : Mat)
    (seq_lens : List ℕ) (lookup_table : List (List ℕ)) :
    (create_packed_seq_checked batch_first feats seq_lens
        lookup_table).isSome ↔
      cps_framework_ok feats seq_lens lookup_table := by
  simp only [create_packed_seq_checked]
  by_cases hne : seq_lens.isEmpty
  · rw [if_pos hne]
    simp [cps_framework_ok, List.isEmpty_iff.mp hne]
  · rw [if_neg hne]
    rw [isSome_do_pure, allSome_isSome]
    constructor
    · intro h
      refine ⟨by simpa [List.isEmpty_iff] using hne, ?_⟩
      intro i hi j hj
      have h2 := (allSome_isSome _ _).mp (h i (List.mem_range.mpr hi)) j
        (List.mem_range.mpr (lt_of_lt_of_le hj (getD_le_list_max hi)))
      rw [if_pos hj] at h2
      exact (cps_branch_isSome feats lookup_table i j).mp h2
    · rintro ⟨h0, hcond⟩
      intro i hi
      rw [List.mem_range] at hi
      rw [allSome_isSome]
      intro j hj
      by_cases hlt : j < seq_lens.getD i 0
      · rw [if_pos hlt, cps_branch_isSome]
        exact hcond i hi j hlt
      · rw [if_neg hlt]
        simp

/-! ## Lemmas relating the LSTMLosses source form to the claim formulas -/

lemma fw_seq_hiddens_getD (hidden : Ten3) (i sl j : ℕ) (hj : j < sl)
    (hlen : sl ≤ (hidden.getD i []).length) :
    (fw_seq_hiddens hidden i sl).getD j [] = hfw_spec hidden i j := by
  simp only [fw_seq_hiddens, hfw_spec]
  have hj' : j < ((hidden.getD i []).take sl).length := by
    rw [List.length_take]
    omega
  rw [getD_map_of_lt _ _ hj' [] []]
  rw [getD_take _ hj]

lemma bw_seq_hiddens_getD (hidden : Ten3) (i sl j : ℕ) (hj : j < sl)
    (hlen : sl ≤ (hidden.getD i []).length) :
    (bw_seq_hiddens hidden i sl).getD j [] = hbw_spec hidden i j := by
  simp only [bw_seq_hiddens, hbw_spec]
  have hj' : j < ((hidden.getD i []).take sl).length := by
    rw [List.length_take]
    omega
  rw [getD_map_of_lt _ _ hj' [] []]
  rw [getD_take _ hj]

lemma getD_append_singleton {α : Type} (A : List α) (z d : α) :
    (A ++ [z]).getD A.length d = z := by
  rw [List.getD_eq_getElem _ _ (by simp)]
  rw [List.getElem_append_right (le_refl _)]
  simp

lemma fw_seq_feats_getD (feats : Ten3) (lens : List ℕ) (i j : ℕ)
    (hj : j < lens.getD i 0)
    (hlen : lens.getD i 0 ≤ (feats.getD i []).length) :
    (fw_seq_feats feats i (lens.getD i 0)).getD (j + 1) [] =
      x_stop_spec feats lens i (j + 1) := by
  simp only [fw_seq_feats, x_stop_spec]
  have htl : ((feats.getD i []).take (lens.getD i 0)).length = lens.getD i 0 := by
    rw [List.length_take]
    omega
  by_cases hj1 : j + 1 < lens.getD i 0
  · rw [if_pos hj1]
    rw [List.getD_append _ _ _ (j + 1) (by omega)]
    rw [getD_take _ hj1]
  · have hj1' : j + 1 = lens.getD i 0 := by omega
    rw [if_neg hj1]
    rw [show j + 1 = ((feats.getD i []).take (lens.getD i 0)).length by omega]
    rw [getD_append_singleton]

lemma bw_seq_feats_getD (feats : Ten3) (lens : List ℕ) (i j : ℕ)
    (hj : j < lens.getD i 0) :
    (bw_seq_feats feats i (lens.getD i 0)).getD j [] =
      x_start_spec feats i j := by
  simp only [bw_seq_feats, x_start_spec]
  cases j with
  | zero => simp
  | succ m =>
    rw [List.getD_cons_succ]
    rw [if_neg (by omega)]
    rw [getD_take _ (by omega : m < lens.getD i 0)]
    simp

lemma exp_mm_denom_eq (h : Vec) (feats : Ten3) (n maxL : ℕ)
    (h1 : ∀ k < n, (feats.getD k []).length = maxL) :
    exp_mm_denom h feats n = denom_spec h feats n maxL := by
  simp only [exp_mm_denom, denom_spec]
  congr 1
  apply List.map_congr_left
  intro k hk
  rw [List.mem_range] at hk
  rw [map_sum_eq_range_sum _ (feats.getD k []) []]
  rw [h1 k hk]

lemma dotv_zeros (u : Vec) (d : ℕ) : dotv u (zeros d) = 0 := by
  induction u generalizing d with
  | nil => simp [dotv]
  | cons a t ih =>
    cases d with
    | zero => simp [dotv, zeros]
    | succ m =>
      have := ih m
      simp only [dotv, zeros] at *
      rw [List.replicate_succ, List.zipWith_cons_cons, List.sum_cons, mul_zero,
        this, add_zero]

lemma list_range_map_sum (f : ℕ → ℝ) (n : ℕ) :
    ((List.range n).map f).sum = ∑ t ∈ Finset.range n, f t := by
  induction n with
  | zero => simp
  | succ m ih =>
    rw [List.range_succ, List.map_append, List.sum_append,
      Finset.sum_range_succ, ih]
    simp

/-! ## Claim theorems: LSTMLosses -/

/-- C2: `LSTMLosses.forward(packed_feats, hidden)` computes the per-timestep
forward and backward probabilities over the batch: for every sequence `i` and
timestep `j < seq_lens[i]` the forward probability is
`exp(h_fw[i,j] . x[i,j+1])` divided by the sum over every sequence `k` and
every padded position of `exp(h_fw[i,j] . x[k,.])`, where `x[i, seq_len]` is a
zero stop vector; the backward probability is analogous with the zero start
vector prepended; the function returns the pair
`(mean over i of -log(sum_j fw_prob_j)/seq_lens[i], same for backward)`. -/
theorem C2_lstm_losses_forward_formula (c : Bool) (feats hidden : Ten3)
    (lens : List ℕ) (maxL : ℕ)
    (h1 : ∀ k < lens.length, (feats.getD k []).length = maxL)
    (h2 : ∀ i < lens.length, lens.getD i 0 ≤ maxL)
    (h3 : ∀ i < lens.length, lens.getD i 0 ≤ (hidden.getD i []).length) :
    (LSTMLosses.mk true c).forward (pack_padded_sequence feats lens true)
        hidden =
      lstm_losses_spec feats hidden lens maxL := by
  have hfw : ∀ i < lens.length,
      fw_seq_prob_sum feats hidden i (lens.getD i 0) lens.length =
        ((List.range (lens.getD i 0)).map fun j =>
          fw_prob_spec feats hidden lens maxL i j).sum := by
    intro i hi
    simp only [fw_seq_prob_sum, fw_prob_spec]
    apply congrArg List.sum
    apply List.map_congr_left
    intro j hj
    rw [List.mem_range] at hj
    rw [fw_seq_hiddens_getD hidden i _ j hj (h3 i hi)]
    rw [fw_seq_feats_getD feats lens i j hj (by rw [h1 i hi]; exact h2 i hi)]
    rw [exp_mm_denom_eq _ feats lens.length maxL h1]
  have hbw : ∀ i < lens.length,
      bw_seq_prob_sum feats hidden i (lens.getD i 0) lens.length =
        ((List.range (lens.getD i 0)).map fun j =>
          bw_prob_spec feats hidden lens maxL i j).sum := by
    intro i hi
    simp only [bw_seq_prob_sum, bw_prob_spec]
    apply congrArg List.sum
    apply List.map_congr_left
    intro j hj
    rw [List.mem_range] at hj
    rw [bw_seq_hiddens_getD hidden i _ j hj (h3 i hi)]
    rw [bw_seq_feats_getD feats lens i j hj]
    rw [exp_mm_denom_eq _ feats lens.length maxL h1]
  simp only [LSTMLosses.forward, pad_packed_sequence, pack_padded_sequence,
    lstm_losses_spec]
  rw [if_pos trivial]
  rw [Prod.mk.injEq]
  constructor
  · have : ((List.range lens.length).map fun i =>
        (-Real.log (fw_seq_prob_sum feats hidden i (lens.getD i 0)
          lens.length)) / ((lens.getD i 0 : ℕ) : ℝ)) =
        ((List.range lens.length).map fun i =>
          (-Real.log (((List.range (lens.getD i 0)).map fun j =>
            fw_prob_spec feats hidden lens maxL i j).sum)) /
            ((lens.getD i 0 : ℕ) : ℝ)) := by
      apply List.map_congr_left
      intro i hi
      rw [List.mem_range] at hi
      rw [hfw i hi]
    rw [this]
  · have : ((List.range lens.length).map fun i =>
        (-Real.log (bw_seq_prob_sum feats hidden i (lens.getD i 0)
          lens.length)) / ((lens.getD i 0 : ℕ) : ℝ)) =
        ((List.range lens.length).map fun i =>
          (-Real.log (((List.range (lens.getD i 0)).map fun j =>
            bw_prob_spec feats hidden lens maxL i j).sum)) /
            ((lens.getD i 0 : ℕ) : ℝ)) := by
      apply List.map_congr_left
      intro i hi
      rw [List.mem_range] at hi
      rw [hbw i hi]
    rw [this]

/-- Witness for C2 at a concrete one-sequence batch. -/
theorem C2_lstm_losses_forward_formula_witness :
    (LSTMLosses.mk true false).forward
        (pack_padded_sequence [[[2]]] [1] true) [[[4, 7]]] =
      lstm_losses_spec [[[2]]] [[[4, 7]]] [1] 1 :=
  C2_lstm_losses_forward_formula false [[[2]]] [[[4, 7]]] [1] 1 (by decide)
    (by decide) (by decide)

/-- C9: in `LSTMLosses.forward` the normalizing denominator sums
`exp(h . x)` over all `max_seq_len` positions of every sequence of the padded
batch: the positions beyond a sequence's length hold the zero vector, so each
contributes `exp(0) = 1`, and the denominator is never restricted to the
valid timesteps. -/
theorem C9_denominator_sums_all_padded_positions (h : Vec) (feats : Ten3)
    (lens : List ℕ) (maxL featDim : ℕ)
    (h1 : ∀ k < lens.length, (feats.getD k []).length = maxL)
    (h2 : ∀ k < lens.length, lens.getD k 0 ≤ maxL)
    (hpad : ∀ k < lens.length, ∀ t, lens.getD k 0 ≤ t → t < maxL →
      (feats.getD k []).getD t [] = zeros featDim) :
    exp_mm_denom h feats lens.length =
      ((List.range lens.length).map fun k =>
        ((List.range (lens.getD k 0)).map fun t =>
          Real.exp (dotv h ((feats.getD k []).getD t []))).sum +
        ((maxL - lens.getD k 0 : ℕ) : ℝ) * Real.exp 0).sum ∧
    Real.exp (0 : ℝ) = 1 := by
  refine ⟨?_, Real.exp_zero⟩
  simp only [exp_mm_denom]
  apply congrArg List.sum
  apply List.map_congr_left
  intro k hk
  rw [List.mem_range] at hk
  rw [map_sum_eq_range_sum _ (feats.getD k []) [], h1 k hk]
  rw [list_range_map_sum, list_range_map_sum]
  rw [Finset.range_eq_Ico,
    ← Finset.sum_Ico_consecutive _ (Nat.zero_le (lens.getD k 0)) (h2 k hk)]
  congr 1
  have hall : ∀ t ∈ Finset.Ico (lens.getD k 0) maxL,
      Real.exp (dotv h ((feats.getD k []).getD t [])) = Real.exp 0 := by
    intro t ht
    rw [Finset.mem_Ico] at ht
    rw [hpad k hk t ht.1 ht.2, dotv_zeros]
  rw [Finset.sum_congr rfl hall, Finset.sum_const, Nat.card_Ico]
  simp [nsmul_eq_mul]

/-- Witness for C9 at a concrete two-sequence batch with one padded position
per sequence. -/
theorem C9_denominator_sums_all_padded_positions_witness :
    exp_mm_denom [1] [[[2], [0]], [[3], [0]]] ([1, 1] : List ℕ).length =
      ((List.range ([1, 1] : List ℕ).length).map fun k =>
        ((List.range (([1, 1] : List ℕ).getD k 0)).map fun t =>
          Real.exp (dotv [1]
            ((([[[2], [0]], [[3], [0]]] : Ten3).getD k []).getD t []))).sum +
        ((2 - ([1, 1] : List ℕ).getD k 0 : ℕ) : ℝ) * Real.exp 0).sum ∧
    Real.exp (0 : ℝ) = 1 :=
  C9_denominator_sums_all_padded_positions [1] [[[2], [0]], [[3], [0]]]
    [1, 1] 2 1 (by decide) (by decide)
    (by
      intro k hk t ht1 ht2
      have hk2 : k < 2 := by simpa using hk
      have ht1' : 1 ≤ t := by
        interval_cases k <;> simpa using ht1
      have ht : t = 1 := by omega
      subst ht
      interval_cases k <;> rfl)

/-! ## Claim theorems: FullBiLSTM.forward and init_hidden -/

lemma mk_ten3_shape (a b c : ℕ) (g : ℕ → ℕ → ℕ → ℝ) :
    (mk_ten3 a b c g).length = a ∧
    ∀ m2 ∈ mk_ten3 a b c g, m2.length = b ∧ ∀ row ∈ m2, row.length = c := by
  refine ⟨by simp [mk_ten3], ?_⟩
  intro m2 hm2
  simp only [mk_ten3, List.mem_map] at hm2
  obtain ⟨x, _, rfl⟩ := hm2
  refine ⟨by simp, ?_⟩
  intro row hrow
  simp only [List.mem_map] at hrow
  obtain ⟨y, _, rfl⟩ := hrow
  simp

/-- C5: `FullBiLSTM.forward(images, seq_lens, lookup_table, hidden)` is the
composition of CNN feature extraction (the `inception_v3` backbone whose final
fully-connected layer is replaced by `Linear(2048, input_dim)`, so every
feature vector has dimension `input_dim`), `create_packed_seq` packing, and
the single-layer bidirectional LSTM of hidden size `hidden_dim`; it returns
the packed features together with the LSTM result, and
`init_hidden(batch_size)` returns a hidden/cell pair each of shape
`(2, batch_size, hidden_dim)`. -/
theorem C5_full_bilstm_forward_composition {Img Out : Type} (m : FullBiLSTM)
    (input_dim hidden_dim : ℕ) (batch_first : Bool) (dropout : ℝ)
    (w : ℕ → ℕ → ℝ) (b : ℕ → ℝ) (backbone : Img → Vec)
    (lstm_run : PackedSequence → Ten3 × Ten3 → Out) (images : List Img)
    (seq_lens : List ℕ) (lookup_table : List (List ℕ))
    (hidden : Ten3 × Ten3) (batch_size : ℕ) (g1 g2 : ℕ → ℕ → ℕ → ℝ)
    (hm : m = FullBiLSTM.init input_dim hidden_dim batch_first dropout w b) :
    m.forward backbone lstm_run images seq_lens lookup_table hidden =
      (create_packed_seq batch_first (cnn_features m backbone images)
        seq_lens lookup_table,
       lstm_run (create_packed_seq batch_first
        (cnn_features m backbone images) seq_lens lookup_table) hidden) ∧
    (∀ f ∈ cnn_features m backbone images, f.length = input_dim) ∧
    m.lstm = ⟨input_dim, hidden_dim, 1, batch_first, true, dropout⟩ ∧
    (m.init_hidden batch_size g1 g2).1.length = 2 ∧
    (m.init_hidden batch_size g1 g2).2.length = 2 ∧
    (∀ m2 ∈ (m.init_hidden batch_size g1 g2).1,
      m2.length = batch_size ∧ ∀ row ∈ m2, row.length = hidden_dim) ∧
    (∀ m2 ∈ (m.init_hidden batch_size g1 g2).2,
      m2.length = batch_size ∧ ∀ row ∈ m2, row.length = hidden_dim) := by
  subst hm
  refine ⟨?_, ?_, rfl, ?_, ?_, ?_, ?_⟩
  · simp [FullBiLSTM.forward, FullBiLSTM.init]
  · intro f hf
    simp only [cnn_features, List.mem_map] at hf
    obtain ⟨im, _, rfl⟩ := hf
    have hw := (nn_Linear 2048 input_dim w b).2.1
    have hb := (nn_Linear 2048 input_dim w b).2.2
    simp [linear_apply, List.length_zipWith, FullBiLSTM.init, hw, hb]
  · simp [FullBiLSTM.init_hidden, mk_ten3]
  · simp [FullBiLSTM.init_hidden, mk_ten3]
  · exact (mk_ten3_shape 2 batch_size hidden_dim g1).2
  · exact (mk_ten3_shape 2 batch_size hidden_dim g2).2

/-- Witness for C5 at a concrete instantiation. -/
theorem C5_full_bilstm_forward_composition_witness :
    ((FullBiLSTM.init 3 4 true 0 (fun _ _ => 1) (fun _ => 0)).forward
        (fun _ : ℕ => [1, 2]) (fun p h => (p, h)) [0] [1] [[0]]
        ([], []) =
      (create_packed_seq true
        (cnn_features (FullBiLSTM.init 3 4 true 0 (fun _ _ => 1) (fun _ => 0))
          (fun _ : ℕ => [1, 2]) [0]) [1] [[0]],
       (create_packed_seq true
        (cnn_features (FullBiLSTM.init 3 4 true 0 (fun _ _ => 1) (fun _ => 0))
          (fun _ : ℕ => [1, 2]) [0]) [1] [[0]], ([], [])))) ∧
    (∀ f ∈ cnn_features (FullBiLSTM.init 3 4 true 0 (fun _ _ => 1)
        (fun _ => 0)) (fun _ : ℕ => [1, 2]) [0], f.length = 3) :=
  ⟨(C5_full_bilstm_forward_composition
      (FullBiLSTM.init 3 4 true 0 (fun _ _ => 1) (fun _ => 0)) 3 4 true 0
      (fun _ _ => 1) (fun _ => 0) (fun _ : ℕ => [1, 2]) (fun p h => (p, h))
      [0] [1] [[0]] ([], []) 2 (fun _ _ _ => 0) (fun _ _ _ => 0) rfl).1,
   (C5_full_bilstm_forward_composition
      (FullBiLSTM.init 3 4 true 0 (fun _ _ => 1) (fun _ => 0)) 3 4 true 0
      (fun _ _ => 1) (fun _ => 0) (fun _ : ℕ => [1, 2]) (fun p h => (p, h))
      [0] [1] [[0]] ([], []) 2 (fun _ _ _ => 0) (fun _ _ _ => 0) rfl).2.1⟩

/-! ## Checked LSTMLosses.forward: the framework checks of each operation -/

/-- The length check of `torch.dot(u, v)`: PyTorch raises unless the operand
lengths agree. -/
def dot_check (u v : Vec) : Option Unit :=
  if u.length = v.length then some () else none

/-- The checks of the denominator line of `LSTMLosses.forward`: each
`feats[k]` for `k in range(len(seq_lens))` is an index into the padded batch,
and `torch.mm(h.unsqueeze(0), feats[k].permute(1, 0))` requires every row of
`feats[k]` to have the length of `h`. -/
def exp_mm_denom_checks (h : Vec) (feats : Ten3) (n : ℕ) : Option Unit :=
  allSome (fun k => do
    let fk ← feats[k]?
    if fk.all (fun row => row.length == h.length) then some () else none)
    (List.range n)

/-- The checks of one iteration of the `j` loop of `LSTMLosses.forward`:
index `fw_seq_hiddens[j]`, the forward denominator, index
`fw_seq_feats[j + 1]`, the forward `torch.dot`, then the same four for the
backward direction, in source order. -/
def lstm_step_checks (feats hidden : Ten3) (lens : List ℕ) (i j : ℕ) :
    Option Unit := do
  let hj ← (fw_seq_hiddens hidden i (lens.getD i 0))[j]?
  let _ ← exp_mm_denom_checks hj feats lens.length
  let fj ← (fw_seq_feats feats i (lens.getD i 0))[j + 1]?
  let _ ← dot_check hj fj
  let gj ← (bw_seq_hiddens hidden i (lens.getD i 0))[j]?
  let _ ← exp_mm_denom_checks gj feats lens.length
  let bj ← (bw_seq_feats feats i (lens.getD i 0))[j]?
  let _ ← dot_check gj bj
  pure ()

/-- The checks of one iteration of the `i` loop of `LSTMLosses.forward`:
`feats[i, :seq_len, :]` and `hidden[i, :seq_len, ...]` index the batch
dimension, then the `j` loop runs over `range(seq_len)`. -/
def lstm_seq_checks (feats hidden : Ten3) (lens : List ℕ) (i : ℕ) :
    Option Unit := do
  let _ ← feats[i]?
  let _ ← hidden[i]?
  allSome (lstm_step_checks feats hidden lens i)
    (List.range (lens.getD i 0))

/-- Checked variant of `LSTMLosses.forward`: runs every framework check the
source's tensor operations perform, in source order, and on success returns
the unchecked value.  The repository adds no check, raise or except of its
own. -/
noncomputable def LSTMLosses.forward_checked (self : LSTMLosses)
    (packed_feats : PackedSequence) (hidden : Ten3) : Option (ℝ × ℝ) := do
  let fp := pad_packed_sequence packed_feats self.batch_first
  let _ ← allSome (lstm_seq_checks fp.1 hidden fp.2)
    (List.range fp.2.length)
  pure (self.forward packed_feats hidden)

/-- The exact framework-level success condition of `LSTMLosses.forward` on a
rectangular batch: every sequence index fits both the padded features and the
hidden tensor, no sequence is longer than either padded time dimension, and
whenever a timestep is processed the hidden width is twice the feature width
(so that both halves of the hidden state match the features in
`torch.dot`/`torch.mm`). -/
def lstm_framework_ok (feats hidden : Ten3) (lens : List ℕ)
    (maxL maxLh featDim H : ℕ) : Prop :=
  lens.length ≤ feats.length ∧ lens.length ≤ hidden.length ∧
  ∀ i < lens.length, lens.getD i 0 ≤ maxL ∧ lens.getD i 0 ≤ maxLh ∧
    (0 < lens.getD i 0 → H = 2 * featDim)

lemma size2_of_rect {t : Ten3} {a b : ℕ}
    (hr : ∀ x ∈ t, x.length = a ∧ ∀ row ∈ x, row.length = b)
    (ht : t ≠ []) (ha : 0 < a) : size2 t = b := by
  cases t with
  | nil => exact absurd rfl ht
  | cons x xs =>
    have hx := hr x (by simp)
    cases hxv : x with
    | nil =>
      rw [hxv] at hx
      simp at hx
      omega
    | cons r rs =>
      have hrw := hx.2 r (by rw [hxv]; simp)
      simp [size2, hxv, hrw]

lemma forall_lt_lt_iff (m c : ℕ) : (∀ j < m, j < c) ↔ m ≤ c := by
  constructor
  · intro h
    by_cases hm : m = 0
    · omega
    · have := h (m - 1) (by omega)
      omega
  · intro h j hj
    omega

lemma isSome_getElem?_list {α : Type} (l : List α) (i : ℕ) :
    l[i]?.isSome ↔ i < l.length := by
  by_cases h : i < l.length
  · rw [List.getElem?_eq_getElem h]
    simp [h]
  · rw [List.getElem?_eq_none (by omega)]
    simp [h]

lemma exp_mm_denom_checks_isSome (h : Vec) (feats : Ten3) (n : ℕ)
    {maxL featDim : ℕ}
    (hfr : ∀ x ∈ feats, x.length = maxL ∧ ∀ row ∈ x, row.length = featDim)
    (hn : 0 < n) :
    (exp_mm_denom_checks h feats n).isSome ↔
      (n ≤ feats.length ∧ (maxL = 0 ∨ featDim = h.length)) := by
  rw [exp_mm_denom_checks, allSome_isSome]
  constructor
  · intro hall
    have h1 : ∀ k < n, k < feats.length := by
      intro k hk
      have hk2 := hall k (List.mem_range.mpr hk)
      by_contra hnot
      rw [List.getElem?_eq_none (by omega)] at hk2
      simp at hk2
    refine ⟨(forall_lt_lt_iff n feats.length).mp h1, ?_⟩
    by_cases hm : maxL = 0
    · exact Or.inl hm
    · right
      have h0f : 0 < feats.length := h1 0 hn
      have h0 := hall 0 (List.mem_range.mpr hn)
      rw [List.getElem?_eq_getElem h0f] at h0
      simp only [Option.bind_eq_bind, Option.some_bind] at h0
      by_cases hc : (feats[0]).all (fun row => row.length == h.length) = true
      · have hx := hfr (feats[0]) (List.getElem_mem h0f)
        cases hvv : feats[0] with
        | nil =>
          exfalso
          rw [hvv] at hx
          simp at hx
          omega
        | cons r rs =>
          have hr := hx.2 r (by rw [hvv]; simp)
          rw [List.all_eq_true] at hc
          have hrh := hc r (by rw [hvv]; simp)
          rw [beq_iff_eq] at hrh
          rw [← hr]
          exact hrh
      · rw [if_neg hc] at h0
        simp at h0
  · rintro ⟨hnf, hdisj⟩
    intro k hk
    rw [List.mem_range] at hk
    have hkf : k < feats.length := by omega
    rw [List.getElem?_eq_getElem hkf]
    simp only [Option.bind_eq_bind, Option.some_bind]
    have hx := hfr (feats[k]) (List.getElem_mem hkf)
    have hcond : (feats[k]).all (fun row => row.length == h.length) = true := by
      rw [List.all_eq_true]
      intro row hrow
      rcases hdisj with hm | hfd
      · exfalso
        have h0 : (feats[k]).length = 0 := by rw [hx.1, hm]
        rw [List.length_eq_zero] at h0
        rw [h0] at hrow
        simp at hrow
      · rw [beq_iff_eq, hx.2 row hrow, hfd]
    rw [if_pos hcond]
    simp

lemma hidden_getD_len (hidden : Ten3) (i : ℕ) {maxLh H : ℕ}
    (hhr : ∀ x ∈ hidden, x.length = maxLh ∧ ∀ row ∈ x, row.length = H)
    (hih : i < hidden.length) :
    (hidden.getD i []).length = maxLh := by
  rw [List.getD_eq_getElem _ _ hih]
  exact (hhr (hidden[i]) (List.getElem_mem hih)).1

lemma fw_seq_hiddens_len (hidden : Ten3) (i sl : ℕ) {maxLh H : ℕ}
    (hhr : ∀ x ∈ hidden, x.length = maxLh ∧ ∀ row ∈ x, row.length = H)
    (hih : i < hidden.length) :
    (fw_seq_hiddens hidden i sl).length = min sl maxLh := by
  have hl := hidden_getD_len hidden i hhr hih
  simp only [fw_seq_hiddens, List.length_map, List.length_take]
  rw [hl]

lemma bw_seq_hiddens_len (hidden : Ten3) (i sl : ℕ) {maxLh H : ℕ}
    (hhr : ∀ x ∈ hidden, x.length = maxLh ∧ ∀ row ∈ x, row.length = H)
    (hih : i < hidden.length) :
    (bw_seq_hiddens hidden i sl).length = min sl maxLh := by
  have hl := hidden_getD_len hidden i hhr hih
  simp only [bw_seq_hiddens, List.length_map, List.length_take]
  rw [hl]

lemma take_get_length_eq {l : Mat} {sl j H : ℕ}
    (hrows : ∀ row ∈ l, row.length = H) (hj : j < (l.take sl).length) :
    ((l.take sl).get ⟨j, hj⟩).length = H := by
  apply hrows
  rw [List.get_eq_getElem, List.getElem_take]
  exact List.getElem_mem _

lemma fw_seq_hiddens_getElem_len (hidden : Ten3) (i sl j : ℕ) {maxLh H : ℕ}
    (hhr : ∀ x ∈ hidden, x.length = maxLh ∧ ∀ row ∈ x, row.length = H)
    (hih : i < hidden.length) (hml : 0 < maxLh)
    (hj : j < (fw_seq_hiddens hidden i sl).length) :
    ((fw_seq_hiddens hidden i sl).get ⟨j, hj⟩).length = H / 2 := by
  have hH : size2 hidden = H :=
    size2_of_rect hhr (by intro he; rw [he] at hih; simp at hih) hml
  have hgd : hidden.getD i [] = hidden[i] := List.getD_eq_getElem _ _ hih
  rw [List.get_eq_getElem]
  simp only [fw_seq_hiddens] at hj ⊢
  rw [List.getElem_map, List.length_take]
  have hjt : j < ((hidden.getD i []).take sl).length := by simpa using hj
  have hlen := take_get_length_eq
    (fun row hrow => (hhr (hidden[i]) (List.getElem_mem hih)).2 row
      (by rw [← hgd]; exact hrow)) hjt
  rw [List.get_eq_getElem] at hlen
  rw [hlen, hH]
  omega

lemma bw_seq_hiddens_getElem_len (hidden : Ten3) (i sl j : ℕ) {maxLh H : ℕ}
    (hhr : ∀ x ∈ hidden, x.length = maxLh ∧ ∀ row ∈ x, row.length = H)
    (hih : i < hidden.length) (hml : 0 < maxLh)
    (hj : j < (bw_seq_hiddens hidden i sl).length) :
    ((bw_seq_hiddens hidden i sl).get ⟨j, hj⟩).length = H - H / 2 := by
  have hH : size2 hidden = H :=
    size2_of_rect hhr (by intro he; rw [he] at hih; simp at hih) hml
  have hgd : hidden.getD i [] = hidden[i] := List.getD_eq_getElem _ _ hih
  rw [List.get_eq_getElem]
  simp only [bw_seq_hiddens] at hj ⊢
  rw [List.getElem_map, List.length_drop]
  have hjt : j < ((hidden.getD i []).take sl).length := by simpa using hj
  have hlen := take_get_length_eq
    (fun row hrow => (hhr (hidden[i]) (List.getElem_mem hih)).2 row
      (by rw [← hgd]; exact hrow)) hjt
  rw [List.get_eq_getElem] at hlen
  rw [hlen, hH]

lemma fw_seq_feats_len (feats : Ten3) (i sl : ℕ) {maxL featDim : ℕ}
    (hfr : ∀ x ∈ feats, x.length = maxL ∧ ∀ row ∈ x, row.length = featDim)
    (hif : i < feats.length) :
    (fw_seq_feats feats i sl).length = min sl maxL + 1 := by
  have hl := hidden_getD_len feats i hfr hif
  simp only [fw_seq_feats, List.length_append, List.length_take,
    List.length_singleton]
  rw [hl]

lemma bw_seq_feats_len (feats : Ten3) (i sl : ℕ) {maxL featDim : ℕ}
    (hfr : ∀ x ∈ feats, x.length = maxL ∧ ∀ row ∈ x, row.length = featDim)
    (hif : i < feats.length) :
    (bw_seq_feats feats i sl).length = min sl maxL + 1 := by
  have hl := hidden_getD_len feats i hfr hif
  simp only [bw_seq_feats, List.length_cons, List.length_take]
  rw [hl]

lemma fw_seq_feats_getElem_len (feats : Ten3) (i sl t : ℕ) {maxL featDim : ℕ}
    (hfr : ∀ x ∈ feats, x.length = maxL ∧ ∀ row ∈ x, row.length = featDim)
    (hif : i < feats.length) (hml : 0 < maxL)
    (ht : t < (fw_seq_feats feats i sl).length) :
    ((fw_seq_feats feats i sl).get ⟨t, ht⟩).length = featDim := by
  have hgd : feats.getD i [] = feats[i] := List.getD_eq_getElem _ _ hif
  have hsz : size2 feats = featDim :=
    size2_of_rect hfr (by intro he; rw [he] at hif; simp at hif) hml
  rw [List.get_eq_getElem]
  simp only [fw_seq_feats] at ht ⊢
  by_cases htl : t < ((feats.getD i []).take sl).length
  · rw [List.getElem_append_left htl]
    have hres := take_get_length_eq
      (fun row hrow => (hfr (feats[i]) (List.getElem_mem hif)).2 row
        (by rw [← hgd]; exact hrow)) htl
    rw [List.get_eq_getElem] at hres
    exact hres
  · rw [List.getElem_append_right (by omega)]
    have h0 : t - ((feats.getD i []).take sl).length = 0 := by
      rw [List.length_append, List.length_singleton] at ht
      omega
    simp [h0, zeros, hsz]

lemma bw_seq_feats_getElem_len (feats : Ten3) (i sl t : ℕ) {maxL featDim : ℕ}
    (hfr : ∀ x ∈ feats, x.length = maxL ∧ ∀ row ∈ x, row.length = featDim)
    (hif : i < feats.length) (hml : 0 < maxL)
    (ht : t < (bw_seq_feats feats i sl).length) :
    ((bw_seq_feats feats i sl).get ⟨t, ht⟩).length = featDim := by
  have hgd : feats.getD i [] = feats[i] := List.getD_eq_getElem _ _ hif
  have hsz : size2 feats = featDim :=
    size2_of_rect hfr (by intro he; rw [he] at hif; simp at hif) hml
  rw [List.get_eq_getElem]
  simp only [bw_seq_feats] at ht ⊢
  cases t with
  | zero => simp [zeros, hsz]
  | succ m =>
    rw [List.getElem_cons_succ]
    have hmt : m < ((feats.getD i []).take sl).length := by
      rw [List.length_cons] at ht
      omega
    have hres := take_get_length_eq
      (fun row hrow => (hfr (feats[i]) (List.getElem_mem hif)).2 row
        (by rw [← hgd]; exact hrow)) hmt
    rw [List.get_eq_getElem] at hres
    exact hres

lemma option_unit_eq_some {m : Option Unit} (h : m.isSome) : m = some () := by
  cases m with
  | none => simp at h
  | some u =>
    cases u
    rfl

lemma option_unit_eq_none {m : Option Unit} (h : ¬ m.isSome = true) :
    m = none := by
  cases m with
  | none => rfl
  | some u => simp at h

lemma lstm_step_checks_isSome_iff (feats hidden : Ten3) (lens : List ℕ)
    (i j : ℕ) {maxL maxLh featDim H : ℕ}
    (hfr : ∀ x ∈ feats, x.length = maxL ∧ ∀ row ∈ x, row.length = featDim)
    (hhr : ∀ x ∈ hidden, x.length = maxLh ∧ ∀ row ∈ x, row.length = H)
    (hif : i < feats.length) (hih : i < hidden.length) (hin : i < lens.length)
    (hj : j < lens.getD i 0) :
    (lstm_step_checks feats hidden lens i j).isSome ↔
      (j < maxLh ∧ j < maxL ∧ lens.length ≤ feats.length ∧
        H = 2 * featDim) := by
  have hn : 0 < lens.length := by omega
  simp only [lstm_step_checks]
  have hfwlen := fw_seq_hiddens_len hidden i (lens.getD i 0) hhr hih
  by_cases hjh : j < maxLh
  · have hml0 : 0 < maxLh := by omega
    have hjfw : j < (fw_seq_hiddens hidden i (lens.getD i 0)).length := by
      rw [hfwlen]
      omega
    rw [List.getElem?_eq_getElem hjfw]
    simp only [Option.bind_eq_bind, Option.some_bind]
    have hjlen : ((fw_seq_hiddens hidden i (lens.getD i 0))[j]).length =
        H / 2 := by
      have hres := fw_seq_hiddens_getElem_len hidden i (lens.getD i 0) j hhr
        hih hml0 hjfw
      rw [List.get_eq_getElem] at hres
      exact hres
    by_cases hden : lens.length ≤ feats.length ∧
        (maxL = 0 ∨ featDim = H / 2)
    · have hsome : exp_mm_denom_checks
          ((fw_seq_hiddens hidden i (lens.getD i 0))[j]) feats lens.length =
          some () := by
        apply option_unit_eq_some
        rw [exp_mm_denom_checks_isSome _ _ _ hfr hn]
        refine ⟨hden.1, ?_⟩
        rcases hden.2 with hm | hfd
        · exact Or.inl hm
        · right
          rw [hjlen]
          exact hfd
      rw [hsome]
      simp only [Option.some_bind]
      by_cases hjm : j < maxL
      · have h0maxL : 0 < maxL := by omega
        have hjfe : j + 1 < (fw_seq_feats feats i (lens.getD i 0)).length := by
          rw [fw_seq_feats_len feats i (lens.getD i 0) hfr hif]
          omega
        rw [List.getElem?_eq_getElem hjfe]
        simp only [Option.some_bind]
        have hfjlen : ((fw_seq_feats feats i (lens.getD i 0))[j + 1]).length =
            featDim := by
          have hres := fw_seq_feats_getElem_len feats i (lens.getD i 0)
            (j + 1) hfr hif h0maxL hjfe
          rw [List.get_eq_getElem] at hres
          exact hres
        by_cases hd1 : H / 2 = featDim
        · have hdc : dot_check ((fw_seq_hiddens hidden i (lens.getD i 0))[j])
              ((fw_seq_feats feats i (lens.getD i 0))[j + 1]) = some () := by
            simp only [dot_check]
            rw [if_pos (by rw [hjlen, hfjlen]; exact hd1)]
          rw [hdc]
          simp only [Option.some_bind]
          have hjbw : j < (bw_seq_hiddens hidden i (lens.getD i 0)).length := by
            rw [bw_seq_hiddens_len hidden i (lens.getD i 0) hhr hih]
            omega
          rw [List.getElem?_eq_getElem hjbw]
          simp only [Option.some_bind]
          have hgjlen : ((bw_seq_hiddens hidden i (lens.getD i 0))[j]).length =
              H - H / 2 := by
            have hres := bw_seq_hiddens_getElem_len hidden i (lens.getD i 0) j
              hhr hih hml0 hjbw
            rw [List.get_eq_getElem] at hres
            exact hres
          by_cases hd2 : featDim = H - H / 2
          · have hsome2 : exp_mm_denom_checks
                ((bw_seq_hiddens hidden i (lens.getD i 0))[j]) feats
                lens.length = some () := by
              apply option_unit_eq_some
              rw [exp_mm_denom_checks_isSome _ _ _ hfr hn]
              refine ⟨hden.1, Or.inr ?_⟩
              rw [hgjlen]
              exact hd2
            rw [hsome2]
            simp only [Option.some_bind]
            have hjbf : j < (bw_seq_feats feats i (lens.getD i 0)).length := by
              rw [bw_seq_feats_len feats i (lens.getD i 0) hfr hif]
              omega
            rw [List.getElem?_eq_getElem hjbf]
            simp only [Option.some_bind]
            have hbjlen : ((bw_seq_feats feats i (lens.getD i 0))[j]).length =
                featDim := by
              have hres := bw_seq_feats_getElem_len feats i (lens.getD i 0) j
                hfr hif h0maxL hjbf
              rw [List.get_eq_getElem] at hres
              exact hres
            have hdc2 : dot_check
                ((bw_seq_hiddens hidden i (lens.getD i 0))[j])
                ((bw_seq_feats feats i (lens.getD i 0))[j]) = some () := by
              simp only [dot_check]
              rw [if_pos (by rw [hgjlen, hbjlen]; omega)]
            rw [hdc2]
            simp only [Option.some_bind]
            constructor
            · intro _
              exact ⟨hjh, hjm, hden.1, by omega⟩
            · intro _
              rfl
          · have hnone2 : exp_mm_denom_checks
                ((bw_seq_hiddens hidden i (lens.getD i 0))[j]) feats
                lens.length = none := by
              apply option_unit_eq_none
              intro hs
              have hres := (exp_mm_denom_checks_isSome _ _ _ hfr hn).mp hs
              rcases hres.2 with hm | hfd
              · omega
              · rw [hgjlen] at hfd
                exact hd2 hfd
            rw [hnone2]
            simp only [Option.none_bind]
            constructor
            · intro hco
              simp at hco
            · rintro ⟨h1, h2, h3, hH2⟩
              exfalso
              exact hd2 (by omega)
        · have hdc : dot_check ((fw_seq_hiddens hidden i (lens.getD i 0))[j])
              ((fw_seq_feats feats i (lens.getD i 0))[j + 1]) = none := by
            simp only [dot_check]
            rw [if_neg (by rw [hjlen, hfjlen]; exact hd1)]
          rw [hdc]
          simp only [Option.none_bind]
          constructor
          · intro hco
            simp at hco
          · rintro ⟨h1, h2, h3, hH2⟩
            exfalso
            exact hd1 (by omega)
      · rw [List.getElem?_eq_none
          (by rw [fw_seq_feats_len feats i (lens.getD i 0) hfr hif]; omega)]
        simp only [Option.none_bind]
        constructor
        · intro hco
          simp at hco
        · rintro ⟨h1, h2, h3, hH2⟩
          exact absurd h2 hjm
    · have hnone : exp_mm_denom_checks
          ((fw_seq_hiddens hidden i (lens.getD i 0))[j]) feats lens.length =
          none := by
        apply option_unit_eq_none
        intro hs
        have hres := (exp_mm_denom_checks_isSome _ _ _ hfr hn).mp hs
        apply hden
        refine ⟨hres.1, ?_⟩
        rcases hres.2 with hm | hfd
        · exact Or.inl hm
        · right
          rw [← hjlen]
          exact hfd
      rw [hnone]
      simp only [Option.none_bind]
      constructor
      · intro hco
        simp at hco
      · rintro ⟨h1, h2, h3, hH2⟩
        exfalso
        exact hden ⟨h3, Or.inr (by omega)⟩
  · rw [List.getElem?_eq_none (by rw [hfwlen]; omega)]
    simp only [Option.bind_eq_bind, Option.none_bind]
    constructor
    · intro hco
      simp at hco
    · rintro ⟨h1, h2, h3, hH2⟩
      exact absurd h1 hjh

lemma lstm_seq_checks_isSome_iff (feats hidden : Ten3) (lens : List ℕ)
    (i : ℕ) {maxL maxLh featDim H : ℕ}
    (hfr : ∀ x ∈ feats, x.length = maxL ∧ ∀ row ∈ x, row.length = featDim)
    (hhr : ∀ x ∈ hidden, x.length = maxLh ∧ ∀ row ∈ x, row.length = H)
    (hin : i < lens.length) :
    (lstm_seq_checks feats hidden lens i).isSome ↔
      (i < feats.length ∧ i < hidden.length ∧ lens.getD i 0 ≤ maxL ∧
        lens.getD i 0 ≤ maxLh ∧
        (0 < lens.getD i 0 →
          lens.length ≤ feats.length ∧ H = 2 * featDim)) := by
  simp only [lstm_seq_checks]
  by_cases hif : i < feats.length
  · rw [List.getElem?_eq_getElem hif]
    simp only [Option.bind_eq_bind, Option.some_bind]
    by_cases hih : i < hidden.length
    · rw [List.getElem?_eq_getElem hih]
      simp only [Option.some_bind]
      rw [allSome_isSome]
      constructor
      · intro hall
        have hstep : ∀ j < lens.getD i 0,
            (j < maxLh ∧ j < maxL ∧ lens.length ≤ feats.length ∧
              H = 2 * featDim) := by
          intro j hj
          exact (lstm_step_checks_isSome_iff feats hidden lens i j hfr hhr
            hif hih hin hj).mp (hall j (List.mem_range.mpr hj))
        refine ⟨hif, hih, ?_, ?_, ?_⟩
        · exact (forall_lt_lt_iff _ _).mp (fun j hj => (hstep j hj).2.1)
        · exact (forall_lt_lt_iff _ _).mp (fun j hj => (hstep j hj).1)
        · intro hpos
          have hs := hstep 0 hpos
          exact ⟨hs.2.2.1, hs.2.2.2⟩
      · rintro ⟨_, _, hml, hmlh, hcond⟩
        intro j hj
        rw [List.mem_range] at hj
        rw [lstm_step_checks_isSome_iff feats hidden lens i j hfr hhr hif
          hih hin hj]
        have hc := hcond (by omega)
        exact ⟨by omega, by omega, hc.1, hc.2⟩
    · rw [List.getElem?_eq_none (by omega)]
      simp only [Option.none_bind]
      constructor
      · intro hco
        simp at hco
      · rintro ⟨_, h2, _⟩
        exact absurd h2 hih
  · rw [List.getElem?_eq_none (by omega)]
    simp only [Option.bind_eq_bind, Option.none_bind]
    constructor
    · intro hco
      simp at hco
    · rintro ⟨h1, _⟩
      exact absurd h1 hif

/-- C6: no function in the repository raises or catches an error of its own.
The checked embeddings of the two functions with a non-trivial failure
surface, `create_packed_seq` and `LSTMLosses.forward`, succeed exactly on the
framework-level success condition (every failure is an index or shape check of
the numeric framework, in source order), so the repository adds no error
taxonomy or handling of its own. -/
theorem C6_failures_are_framework_checks_only :
    (∀ (batch_first : Bool) (feats : Mat) (seq_lens : List ℕ)
      (lookup_table : List (List ℕ)),
      (create_packed_seq_checked batch_first feats seq_lens
          lookup_table).isSome ↔
        cps_framework_ok feats seq_lens lookup_table) ∧
    (∀ (c : Bool) (feats hidden : Ten3) (lens : List ℕ)
      (maxL maxLh featDim H : ℕ),
      (∀ x ∈ feats, x.length = maxL ∧ ∀ row ∈ x, row.length = featDim) →
      (∀ x ∈ hidden, x.length = maxLh ∧ ∀ row ∈ x, row.length = H) →
      (((LSTMLosses.mk true c).forward_checked
          (pack_padded_sequence feats lens true) hidden).isSome ↔
        lstm_framework_ok feats hidden lens maxL maxLh featDim H)) := by
  constructor
  · exact cps_checked_isSome_iff
  · intro c feats hidden lens maxL maxLh featDim H hfr hhr
    simp only [LSTMLosses.forward_checked, pad_packed_sequence,
      pack_padded_sequence]
    rw [if_pos trivial]
    rw [isSome_do_pure, allSome_isSome]
    simp only [lstm_framework_ok]
    constructor
    · intro hall
      have hseq : ∀ i < lens.length,
          (i < feats.length ∧ i < hidden.length ∧ lens.getD i 0 ≤ maxL ∧
            lens.getD i 0 ≤ maxLh ∧
            (0 < lens.getD i 0 →
              lens.length ≤ feats.length ∧ H = 2 * featDim)) := by
        intro i hi
        exact (lstm_seq_checks_isSome_iff feats hidden lens i hfr hhr hi).mp
          (hall i (List.mem_range.mpr hi))
      refine ⟨(forall_lt_lt_iff _ _).mp (fun i hi => (hseq i hi).1),
        (forall_lt_lt_iff _ _).mp (fun i hi => (hseq i hi).2.1), ?_⟩
      intro i hi
      have hs := hseq i hi
      exact ⟨hs.2.2.1, hs.2.2.2.1, fun hpos => (hs.2.2.2.2 hpos).2⟩
    · rintro ⟨hnf, hnh, hper⟩
      intro i hi
      rw [List.mem_range] at hi
      rw [lstm_seq_checks_isSome_iff feats hidden lens i hfr hhr hi]
      have hp := hper i hi
      exact ⟨by omega, by omega, hp.1, hp.2.1,
        fun hpos => ⟨hnf, hp.2.2 hpos⟩⟩

/-- Witness for C6 at concrete inputs: an empty batch for the packing checks
and a one-sequence rectangular batch for the loss checks. -/
theorem C6_failures_are_framework_checks_only_witness :
    ((create_packed_seq_checked true [] [] []).isSome ↔
      cps_framework_ok [] [] []) ∧
    (((LSTMLosses.mk true false).forward_checked
        (pack_padded_sequence [[[1, 2]]] [1] true) [[[3, 4, 5, 6]]]).isSome ↔
      lstm_framework_ok [[[1, 2]]] [[[3, 4, 5, 6]]] [1] 1 1 2 4) :=
  ⟨C6_failures_are_framework_checks_only.1 true [] [] [],
   C6_failures_are_framework_checks_only.2 false [[[1, 2]]] [[[3, 4, 5, 6]]]
    [1] 1 1 2 4 (by decide) (by decide)⟩
